import Mathlib

/-!
Shallow embedding of the core of the `bitcoin-direction-index` repository.

Numbers are modelled by the real numbers `ℝ` wherever the source computes with
JavaScript floats (`src/lib/index-calculation.ts`); the date-alignment logic
(`src/app/api/fred/route.ts`, `src/components/btc-chart.tsx`) carries its values
unchanged, so those values are modelled by `ℚ` to keep the joins executable.
ISO `YYYY-MM-DD` date strings are compared lexicographically by the source,
which for this fixed format coincides with chronological order, so dates are
modelled as naturals; millisecond epoch timestamps are modelled as integers.
-/

/-- Interpretation categories of the direction index
(`src/unnamed/part_000`, field `interpretation` of `BitcoinDirectionIndex`). -/
inductive Interpretation where
  | very_bearish
  | bearish
  | neutral
  | bullish
  | very_bullish
  deriving DecidableEq, Repr

/-- `LiquidityData` from `src/unnamed/part_000`. -/
structure LiquidityData where
  fedBalanceSheet : ℝ
  tga : ℝ
  rrp : ℝ
  liquidity : ℝ
  date : ℕ

/-- `ISMPMIData` from `src/unnamed/part_000`; the optional fields are never read
by the core computation. -/
structure ISMPMIData where
  value : ℝ
  date : ℕ
  change : Option ℝ := none
  note : Option ℕ := none
  source : Option ℕ := none

/-- `BitcoinPrice` from `src/unnamed/part_000`. -/
structure BitcoinPrice where
  price : ℝ
  timestamp : ℤ
  change24h : Option ℝ := none

/-- Result record `BitcoinDirectionIndex` from `src/unnamed/part_000`. -/
structure BitcoinDirectionIndex where
  index : ℝ
  liquidityZScore : ℝ
  pmiZScore : ℝ
  btcTrend : ℝ
  timestamp : ℤ
  interpretation : Interpretation

/-- Return type of `calculateStats` (`index-calculation.ts`, lines 14-26). -/
structure SampleStats where
  mean : ℝ
  stdDev : ℝ

/-- `calculateZScore` (`index-calculation.ts`, lines 6-9). -/
noncomputable def calculateZScore (value mean stdDev : ℝ) : ℝ :=
  if stdDev = 0 then 0 else (value - mean) / stdDev

/-- `calculateStats` (`index-calculation.ts`, lines 14-26).  JavaScript
`stdDev || 1` substitutes `1` exactly when the computed standard deviation
is `0` (no NaN arises over `ℝ`). -/
noncomputable def calculateStats (values : List ℝ) : SampleStats :=
  if values.length = 0 then
    ⟨0, 1⟩
  else
    let mean := values.sum / (values.length : ℝ)
    let variance :=
      (values.map fun val => (val - mean) ^ 2).sum / (values.length : ℝ)
    let stdDev := Real.sqrt variance
    ⟨mean, if stdDev = 0 then 1 else stdDev⟩

/-- JavaScript `array.slice(-n)`: the last `n` elements (all of them when the
array is shorter than `n`). -/
def sliceLast (n : ℕ) (l : List ℝ) : List ℝ :=
  l.drop (l.length - n)

/-- `calculateBTCTrend` (`index-calculation.ts`, lines 32-51). -/
noncomputable def calculateBTCTrend (currentPrice : ℝ) (historicalPrices : List ℝ) : ℝ :=
  if historicalPrices.length < 2 then 0
  else
    let shortTerm := sliceLast 7 historicalPrices
    let mediumTerm := sliceLast 30 historicalPrices
    if shortTerm.length = 0 ∨ mediumTerm.length = 0 then 0
    else
      let shortTermAvg := shortTerm.sum / (shortTerm.length : ℝ)
      let mediumTermAvg := mediumTerm.sum / (mediumTerm.length : ℝ)
      if mediumTermAvg = 0 then 0
      else
        let trend := (shortTermAvg - mediumTermAvg) / mediumTermAvg
        max (-1) (min 1 (trend * 10))

/-- JavaScript `Math.round`: round half toward positive infinity. -/
noncomputable def jsRound (x : ℝ) : ℤ :=
  ⌊x + 1 / 2⌋

/-- `calculateBitcoinDirectionIndex` (`index-calculation.ts`, lines 57-128).
The source stamps the result with `Date.now()`; that clock reading is the one
implicit input of the function and is made explicit here as `now`. -/
noncomputable def calculateBitcoinDirectionIndex
    (liquidity : LiquidityData) (liquidityHistory : List ℝ)
    (pmi : ISMPMIData) (pmiHistory : List ℝ)
    (btcPrice : BitcoinPrice) (btcPriceHistory : List ℝ)
    (now : ℤ) : BitcoinDirectionIndex :=
  let liquidityStats := calculateStats liquidityHistory
  let liquidityZScore :=
    calculateZScore liquidity.liquidity liquidityStats.mean liquidityStats.stdDev
  let pmiNormalized := pmi.value - 50
  let pmiStats := calculateStats (pmiHistory.map fun p => p - 50)
  let pmiZScore := calculateZScore pmiNormalized pmiStats.mean pmiStats.stdDev
  let btcTrend := calculateBTCTrend btcPrice.price btcPriceHistory
  let normalizedLiquidity := max (-2) (min 2 liquidityZScore) / 2
  let normalizedPMI := max (-2) (min 2 pmiZScore) / 2
  let rawIndex :=
    0.4 * normalizedLiquidity + 0.35 * normalizedPMI + 0.25 * btcTrend
  let index := ((rawIndex + 1) / 2) * 100
  let interpretation : Interpretation :=
    if index < 20 then .very_bearish
    else if index < 40 then .bearish
    else if index < 60 then .neutral
    else if index < 80 then .bullish
    else .very_bullish
  ⟨(jsRound (index * 100) : ℝ) / 100, liquidityZScore, pmiZScore, btcTrend, now,
    interpretation⟩

/-- `calculateCorrelation` (`index-calculation.ts`, lines 133-161).  The
accumulation loop over `i = 0 .. n-1` is rendered as sums over `List.range n`;
`getD i 0` reads position `i` (the default is never reached because every
`i < n`). -/
noncomputable def calculateCorrelation (indexValues priceValues : List ℝ) : ℝ :=
  if indexValues.length ≠ priceValues.length ∨ indexValues.length < 2 then 0
  else
    let n := indexValues.length
    let indexMean := indexValues.sum / (n : ℝ)
    let priceMean := priceValues.sum / (n : ℝ)
    let numerator :=
      ((List.range n).map fun i =>
        (indexValues.getD i 0 - indexMean) * (priceValues.getD i 0 - priceMean)).sum
    let indexVariance :=
      ((List.range n).map fun i =>
        (indexValues.getD i 0 - indexMean) * (indexValues.getD i 0 - indexMean)).sum
    let priceVariance :=
      ((List.range n).map fun i =>
        (priceValues.getD i 0 - priceMean) * (priceValues.getD i 0 - priceMean)).sum
    let denominator := Real.sqrt (indexVariance * priceVariance)
    if denominator = 0 then 0 else numerator / denominator

/-- Forward-fill lookup of `src/app/api/fred/route.ts` (lines 295-317): iterate
the date-sorted entry array backward (most recent first) and return the first
entry whose date is at most the target date; `none` when no entry qualifies. -/
def findLatestOnOrBefore (entries : List (ℕ × ℚ)) (target : ℕ) :
    Option (ℕ × ℚ) :=
  entries.reverse.find? fun e => decide (e.1 ≤ target)

/-- PMI value used for a target date (`route.ts` lines 309-317): `pmiValue` is
initialised to the neutral default `50` and overwritten by the first backward
hit of the forward-fill scan. -/
def pmiValueAt (pmiEntries : List (ℕ × ℚ)) (target : ℕ) : ℚ :=
  match findLatestOnOrBefore pmiEntries target with
  | some e => e.2
  | none => 50

/-- Liquidity value used for a target date (`route.ts` lines 295-307 and
330-340): `liquidityDate` stays empty when no entry qualifies and the price
point is then skipped, which is rendered as `none`. -/
def liquidityValueAt (liquidityEntries : List (ℕ × ℚ)) (target : ℕ) :
    Option ℚ :=
  (findLatestOnOrBefore liquidityEntries target).map Prod.snd

/-- Price point consumed by the chart merge of `src/components/btc-chart.tsx`
(timestamp in epoch milliseconds, date modelled as a natural). -/
structure BtcPricePoint where
  timestamp : ℤ
  date : ℕ
  price : ℚ
  deriving DecidableEq, Repr

/-- Merged chart row of `src/components/btc-chart.tsx` (lines 181-186). -/
structure ChartDataPoint where
  timestamp : ℤ
  date : ℕ
  price : ℚ
  index : ℚ
  deriving DecidableEq, Repr

/-- JavaScript `Map.set`: an existing key keeps its insertion position and gets
the new value; a new key is appended. -/
def indexMapInsert (m : List (ℤ × ℚ)) (k : ℤ) (v : ℚ) : List (ℤ × ℚ) :=
  if m.any fun e => decide (e.1 = k) then
    m.map fun e => if e.1 = k then (k, v) else e
  else
    m ++ [(k, v)]

/-- Index-by-timestamp map built in `btc-chart.tsx` (lines 124-137); the
`isNaN`/`isFinite` filter of the source is vacuous over `ℚ`. -/
def buildIndexMap (points : List (ℤ × ℚ)) : List (ℤ × ℚ) :=
  points.foldl (fun m p => indexMapInsert m p.1 p.2) []

/-- One iteration of the closest-match loop of `btc-chart.tsx` (lines 152-162):
the accumulator holds `(closestDiff, closestIndex)`, `none` standing for the
initial `closestDiff = Infinity, closestIndex = null` state. -/
def closestStep (btcTimestamp : ℤ) (acc : Option (ℤ × ℚ)) (e : ℤ × ℚ) :
    Option (ℤ × ℚ) :=
  let diff := |btcTimestamp - e.1|
  match acc with
  | none => if diff < 86400000 then some (diff, e.2) else none
  | some (closestDiff, closestIndex) =>
      if diff < 86400000 ∧ diff < closestDiff then some (diff, e.2)
      else some (closestDiff, closestIndex)

/-- Closest index value within the 24-hour tolerance window
(`btc-chart.tsx` lines 150-165). -/
def closestWithin24h (m : List (ℤ × ℚ)) (btcTimestamp : ℤ) : Option ℚ :=
  (m.foldl (closestStep btcTimestamp) none).map Prod.snd

/-- Merge of one BTC price point with the index map
(`btc-chart.tsx` lines 140-187): prefer an exact timestamp match, then the
closest match within 24 hours; with no match the point is kept with fallback
index `50` when the index map is empty and dropped otherwise. -/
def mergeBtcPoint (m : List (ℤ × ℚ)) (btcPoint : BtcPricePoint) :
    Option ChartDataPoint :=
  let matchedIndex : Option ℚ :=
    match m.find? fun e => decide (e.1 = btcPoint.timestamp) with
    | some e => some e.2
    | none => closestWithin24h m btcPoint.timestamp
  match matchedIndex with
  | some i => some ⟨btcPoint.timestamp, btcPoint.date, btcPoint.price, i⟩
  | none =>
      if m.length = 0 then
        some ⟨btcPoint.timestamp, btcPoint.date, btcPoint.price, 50⟩
      else none

/-- Whole chart merge of `btc-chart.tsx` (lines 123-191): merge every BTC
price point against the index map, dropping unmatched points, and sort the
result by timestamp. -/
def mergeChartData (indexPoints : List (ℤ × ℚ))
    (btcPoints : List BtcPricePoint) : List ChartDataPoint :=
  (btcPoints.filterMap (mergeBtcPoint (buildIndexMap indexPoints))).mergeSort
    fun a b => decide (a.timestamp ≤ b.timestamp)

/-!
Definitions below this point follow the wording of the specification, not the
source; they exist to be compared with the source-derived definitions above.
-/

/-- Arithmetic mean of a sample, as worded by the spec (§4.1). -/
noncomputable def arithmeticMean (values : List ℝ) : ℝ :=
  values.sum / (values.length : ℝ)

/-- Population standard deviation (divide by `N`, not `N - 1`), as worded by
the spec (§4.1). -/
noncomputable def populationStdDev (values : List ℝ) : ℝ :=
  Real.sqrt
    ((values.map fun v => (v - arithmeticMean values) ^ 2).sum /
      (values.length : ℝ))

/-- Average of the last `n` elements of a sequence (or of all of them when the
sequence is shorter), as worded by the spec (§4.2). -/
noncomputable def windowAverage (n : ℕ) (l : List ℝ) : ℝ :=
  (sliceLast n l).sum / ((sliceLast n l).length : ℝ)

/-- Classification of an index value by the fixed thresholds of the spec
(§4.4 step 7), boundaries exclusive on the upper side of each bucket. -/
noncomputable def interpretIndex (index : ℝ) : Interpretation :=
  if index < 20 then .very_bearish
  else if index < 40 then .bearish
  else if index < 60 then .neutral
  else if index < 80 then .bullish
  else .very_bullish

/-- Sum of products of deviations from the means, as worded by the spec (§4.5):
`sum((x - meanX) * (y - meanY))` over the positionally paired elements. -/
noncomputable def pearsonNumerator (xs ys : List ℝ) : ℝ :=
  ((xs.zip ys).map fun p =>
    (p.1 - arithmeticMean xs) * (p.2 - arithmeticMean ys)).sum

/-- Sum of squared deviations from the mean, as worded by the spec (§4.5). -/
noncomputable def sumSqDev (xs : List ℝ) : ℝ :=
  (xs.map fun x => (x - arithmeticMean xs) ^ 2).sum

/-!
Helper lemmas shared by the claim theorems.
-/

lemma calculateStats_nil : calculateStats [] = ⟨0, 1⟩ := by
  simp [calculateStats]

lemma calculateStats_stdDev_pos (values : List ℝ) :
    0 < (calculateStats values).stdDev := by
  unfold calculateStats
  split
  · norm_num
  · dsimp only
    split
    · norm_num
    · rename_i h
      exact lt_of_le_of_ne (Real.sqrt_nonneg _) (Ne.symm h)

lemma calculateStats_mean_of_ne_nil (values : List ℝ) (h : values ≠ []) :
    (calculateStats values).mean = arithmeticMean values := by
  have hl : ¬ values.length = 0 := by simpa [List.length_eq_zero] using h
  simp only [calculateStats, arithmeticMean, if_neg hl]

lemma calculateStats_stdDev_of_ne_nil (values : List ℝ) (h : values ≠ []) :
    (calculateStats values).stdDev =
      if populationStdDev values = 0 then 1 else populationStdDev values := by
  have hl : ¬ values.length = 0 := by simpa [List.length_eq_zero] using h
  simp only [calculateStats, populationStdDev, arithmeticMean, if_neg hl]

/-- C2: `calculateStats` returns `{mean 0, stdDev 1}` on empty input; on
non-empty input it returns the arithmetic mean and the population standard
deviation (dividing by `N`), substituting `1` for a standard deviation of
exactly `0`; the returned standard deviation is never zero. -/
theorem calculateStats_spec (values : List ℝ) :
    (values = [] → calculateStats values = ⟨0, 1⟩) ∧
    (values ≠ [] →
      (calculateStats values).mean = arithmeticMean values ∧
      (calculateStats values).stdDev =
        (if populationStdDev values = 0 then 1 else populationStdDev values)) ∧
    (calculateStats values).stdDev ≠ 0 := by
  refine ⟨fun h => ?_, fun h => ?_, ?_⟩
  · rw [h, calculateStats_nil]
  · exact ⟨calculateStats_mean_of_ne_nil values h,
      calculateStats_stdDev_of_ne_nil values h⟩
  · exact (calculateStats_stdDev_pos values).ne'

/-- Witness for C2 at the empty sample and at the constant sample `[5, 5, 5]`. -/
theorem calculateStats_spec_witness :
    calculateStats [] = ⟨0, 1⟩ ∧
    (calculateStats [(5 : ℝ), 5, 5]).mean = 5 ∧
    (calculateStats [(5 : ℝ), 5, 5]).stdDev = 1 ∧
    (calculateStats [(5 : ℝ), 5, 5]).stdDev ≠ 0 := by
  have h := calculateStats_spec [(5 : ℝ), 5, 5]
  have hm : (calculateStats [(5 : ℝ), 5, 5]).mean = 5 := by
    rw [(h.2.1 (by simp)).1]
    norm_num [arithmeticMean]
  have hmean : arithmeticMean [(5 : ℝ), 5, 5] = 5 := by
    norm_num [arithmeticMean]
  have hpop : populationStdDev [(5 : ℝ), 5, 5] = 0 := by
    simp [populationStdDev, hmean]
  have hs : (calculateStats [(5 : ℝ), 5, 5]).stdDev = 1 := by
    rw [(h.2.1 (by simp)).2, if_pos hpop]
  exact ⟨(calculateStats_spec ([] : List ℝ)).1 rfl, hm, hs, h.2.2⟩

lemma sliceLast_length (n : ℕ) (l : List ℝ) :
    (sliceLast n l).length = l.length - (l.length - n) := by
  simp [sliceLast]

lemma sliceLast_length_pos (n : ℕ) (l : List ℝ) (hn : 0 < n)
    (hl : l ≠ []) : 0 < (sliceLast n l).length := by
  have : 0 < l.length := List.length_pos.mpr hl
  rw [sliceLast_length]
  omega

lemma calculateBTCTrend_bounds (p : ℝ) (l : List ℝ) :
    -1 ≤ calculateBTCTrend p l ∧ calculateBTCTrend p l ≤ 1 := by
  unfold calculateBTCTrend
  split
  · norm_num
  · dsimp only
    split
    · norm_num
    · split
      · norm_num
      · exact ⟨le_max_left _ _, max_le (by norm_num) (min_le_left _ _)⟩

/-- C6: `calculateBTCTrend` returns `0` for histories of fewer than two
elements and when the medium-window (last 30) average is `0`; otherwise it
returns `clamp(10 * (avg(last 7) - avg(last 30)) / avg(last 30), -1, 1)`;
the result always lies in `[-1, 1]` and never depends on `currentPrice`. -/
theorem calculateBTCTrend_spec (currentPrice : ℝ) (historicalPrices : List ℝ) :
    (historicalPrices.length < 2 →
      calculateBTCTrend currentPrice historicalPrices = 0) ∧
    (2 ≤ historicalPrices.length →
      (windowAverage 30 historicalPrices = 0 →
        calculateBTCTrend currentPrice historicalPrices = 0) ∧
      (windowAverage 30 historicalPrices ≠ 0 →
        calculateBTCTrend currentPrice historicalPrices =
          max (-1) (min 1
            (10 * (windowAverage 7 historicalPrices -
              windowAverage 30 historicalPrices) /
              windowAverage 30 historicalPrices)))) ∧
    (-1 ≤ calculateBTCTrend currentPrice historicalPrices ∧
      calculateBTCTrend currentPrice historicalPrices ≤ 1) ∧
    (∀ p : ℝ, calculateBTCTrend currentPrice historicalPrices =
      calculateBTCTrend p historicalPrices) := by
  refine ⟨fun h => ?_, fun h => ?_,
    calculateBTCTrend_bounds currentPrice historicalPrices, fun p => rfl⟩
  · unfold calculateBTCTrend
    rw [if_pos h]
  · have hne : historicalPrices ≠ [] := by
      intro hnil
      rw [hnil] at h
      simp at h
    have h7 : (sliceLast 7 historicalPrices).length ≠ 0 :=
      (sliceLast_length_pos 7 historicalPrices (by norm_num) hne).ne'
    have h30 : (sliceLast 30 historicalPrices).length ≠ 0 :=
      (sliceLast_length_pos 30 historicalPrices (by norm_num) hne).ne'
    have hlen : ¬ historicalPrices.length < 2 := by omega
    constructor
    · intro hz
      unfold calculateBTCTrend
      rw [if_neg hlen, if_neg (by push_neg; exact ⟨h7, h30⟩)]
      dsimp only
      rw [if_pos (by simpa [windowAverage] using hz)]
    · intro hz
      unfold calculateBTCTrend
      rw [if_neg hlen, if_neg (by push_neg; exact ⟨h7, h30⟩)]
      dsimp only
      rw [if_neg (by simpa [windowAverage] using hz)]
      have : (sliceLast 7 historicalPrices).sum /
            ((sliceLast 7 historicalPrices).length : ℝ) =
          windowAverage 7 historicalPrices := rfl
      simp only [windowAverage]
      ring_nf

/-- Witness for C6: a two-element history takes the clamped-formula branch and
yields `0`; a singleton history yields `0`. -/
theorem calculateBTCTrend_spec_witness :
    calculateBTCTrend 3 [(0 : ℝ), 10] = 0 ∧
    calculateBTCTrend 3 [(4 : ℝ)] = 0 ∧
    calculateBTCTrend 3 [(0 : ℝ), 10] = calculateBTCTrend 7 [(0 : ℝ), 10] := by
  have h := calculateBTCTrend_spec 3 [(0 : ℝ), 10]
  have havg30 : windowAverage 30 [(0 : ℝ), 10] = 5 := by
    norm_num [windowAverage, sliceLast]
  have havg7 : windowAverage 7 [(0 : ℝ), 10] = 5 := by
    norm_num [windowAverage, sliceLast]
  have h1 : calculateBTCTrend 3 [(0 : ℝ), 10] = 0 := by
    rw [(h.2.1 (by norm_num)).2 (by rw [havg30]; norm_num)]
    rw [havg30, havg7]
    norm_num
  exact ⟨h1, (calculateBTCTrend_spec 3 [(4 : ℝ)]).1 (by norm_num),
    h.2.2.2 7⟩

lemma sum_map_sub_const (l : List ℝ) (c : ℝ) :
    (l.map fun p => p - c).sum = l.sum - l.length * c := by
  induction l with
  | nil => simp
  | cons x xs ih =>
      simp only [List.map_cons, List.sum_cons, ih, List.length_cons]
      push_cast
      ring

lemma calculateStats_map_sub (l : List ℝ) (c : ℝ) (h : l ≠ []) :
    calculateStats (l.map fun p => p - c) =
      ⟨(calculateStats l).mean - c, (calculateStats l).stdDev⟩ := by
  have hl : ¬ l.length = 0 := by simpa [List.length_eq_zero] using h
  have hlr : (l.length : ℝ) ≠ 0 := Nat.cast_ne_zero.mpr hl
  have hml : ¬ (l.map fun p => p - c).length = 0 := by
    simpa [List.length_map] using hl
  have hmean : (l.map fun p => p - c).sum /
      (((l.map fun p => p - c).length : ℕ) : ℝ) =
      l.sum / (l.length : ℝ) - c := by
    rw [List.length_map, sum_map_sub_const]
    field_simp
  unfold calculateStats
  rw [if_neg hml, if_neg hl]
  dsimp only
  rw [hmean]
  congr 1
  have hmaps : ((l.map fun p => p - c).map fun val =>
      (val - (l.sum / (l.length : ℝ) - c)) ^ 2) =
      l.map fun val => (val - l.sum / (l.length : ℝ)) ^ 2 := by
    rw [List.map_map]
    refine List.map_congr_left fun a _ => ?_
    simp only [Function.comp_apply]
    ring
  rw [hmaps, List.length_map]

/-- C10: the PMI recentering inside `calculateBitcoinDirectionIndex`
(subtracting 50 from the current PMI value and from every history entry) is a
no-op for every non-empty PMI history — the resulting `pmiZScore` equals the
plain z-score of the raw PMI value against the raw history; when the history
is empty, `pmiZScore` is instead `pmi.value - 50`. -/
theorem composeIndex_pmi_recentering
    (liquidity : LiquidityData) (liquidityHistory : List ℝ)
    (pmi : ISMPMIData) (pmiHistory : List ℝ)
    (btcPrice : BitcoinPrice) (btcPriceHistory : List ℝ) (now : ℤ) :
    (pmiHistory ≠ [] →
      (calculateBitcoinDirectionIndex liquidity liquidityHistory pmi pmiHistory
        btcPrice btcPriceHistory now).pmiZScore =
      calculateZScore pmi.value (calculateStats pmiHistory).mean
        (calculateStats pmiHistory).stdDev) ∧
    (pmiHistory = [] →
      (calculateBitcoinDirectionIndex liquidity liquidityHistory pmi pmiHistory
        btcPrice btcPriceHistory now).pmiZScore = pmi.value - 50) := by
  have hdef : (calculateBitcoinDirectionIndex liquidity liquidityHistory pmi
      pmiHistory btcPrice btcPriceHistory now).pmiZScore =
      calculateZScore (pmi.value - 50)
        (calculateStats (pmiHistory.map fun p => p - 50)).mean
        (calculateStats (pmiHistory.map fun p => p - 50)).stdDev := rfl
  constructor
  · intro h
    rw [hdef, calculateStats_map_sub pmiHistory 50 h]
    unfold calculateZScore
    split
    · rfl
    · ring_nf
  · intro h
    subst h
    rw [hdef]
    simp only [List.map_nil, calculateStats_nil]
    unfold calculateZScore
    norm_num

/-- Witness for C10: PMI value 55 against history `[40, 60]` has z-score `1/2`
both recentered (as computed) and raw; the empty history yields `55 - 50`. -/
theorem composeIndex_pmi_recentering_witness :
    (calculateBitcoinDirectionIndex ⟨0, 0, 0, 0, 0⟩ [] ⟨55, 0, none, none, none⟩ [(40 : ℝ), 60]
      ⟨0, 0, none⟩ [] 0).pmiZScore = 1 / 2 ∧
    (calculateBitcoinDirectionIndex ⟨0, 0, 0, 0, 0⟩ [] ⟨55, 0, none, none, none⟩ []
      ⟨0, 0, none⟩ [] 0).pmiZScore = 5 := by
  have h := (composeIndex_pmi_recentering ⟨0, 0, 0, 0, 0⟩ [] ⟨55, 0, none, none, none⟩
    [(40 : ℝ), 60] ⟨0, 0, none⟩ [] 0).1 (by simp)
  have hmean : (calculateStats [(40 : ℝ), 60]).mean = 50 := by
    rw [calculateStats_mean_of_ne_nil _ (by simp)]
    norm_num [arithmeticMean]
  have hpop : populationStdDev [(40 : ℝ), 60] = 10 := by
    have : ((([(40 : ℝ), 60]).map fun v =>
        (v - arithmeticMean [(40 : ℝ), 60]) ^ 2).sum /
        ((([(40 : ℝ), 60]).length : ℕ) : ℝ)) = 100 := by
      norm_num [arithmeticMean]
    rw [populationStdDev, this]
    rw [show (100 : ℝ) = 10 ^ 2 by norm_num]
    exact Real.sqrt_sq (by norm_num)
  have hstd : (calculateStats [(40 : ℝ), 60]).stdDev = 10 := by
    rw [calculateStats_stdDev_of_ne_nil _ (by simp), hpop]
    norm_num
  have h2 := (composeIndex_pmi_recentering ⟨0, 0, 0, 0, 0⟩ [] ⟨55, 0, none, none, none⟩
    ([] : List ℝ) ⟨0, 0, none⟩ [] 0).2 rfl
  refine ⟨?_, by rw [h2]; norm_num⟩
  rw [h, hmean, hstd]
  unfold calculateZScore
  norm_num

lemma interpretation_cases (i : Interpretation) :
    i = .very_bearish ∨ i = .bearish ∨ i = .neutral ∨ i = .bullish ∨
      i = .very_bullish := by
  cases i <;> simp

lemma clamp_half_bounds (z : ℝ) :
    -1 ≤ max (-2) (min 2 z) / 2 ∧ max (-2) (min 2 z) / 2 ≤ 1 := by
  have h1 : (-2 : ℝ) ≤ max (-2) (min 2 z) := le_max_left _ _
  have h2 : max (-2) (min 2 z) ≤ 2 := max_le (by norm_num) (min_le_left _ _)
  constructor <;> linarith

lemma jsRound_div_bounds (y : ℝ) (h0 : 0 ≤ y) (h1 : y ≤ 100) :
    0 ≤ ((jsRound (y * 100) : ℤ) : ℝ) / 100 ∧
      ((jsRound (y * 100) : ℤ) : ℝ) / 100 ≤ 100 := by
  unfold jsRound
  constructor
  · apply div_nonneg _ (by norm_num)
    have : (0 : ℤ) ≤ ⌊y * 100 + 1 / 2⌋ := Int.le_floor.mpr (by push_cast; linarith)
    exact_mod_cast this
  · rw [div_le_iff₀ (by norm_num : (0 : ℝ) < 100)]
    have h2 : ⌊y * 100 + 1 / 2⌋ < 10001 := by
      rw [Int.floor_lt]
      push_cast
      linarith
    have h3 : (⌊y * 100 + 1 / 2⌋ : ℝ) ≤ 10000 :=
      by exact_mod_cast Int.lt_add_one_iff.mp h2
    linarith

/-- Evaluation of every field of the result of
`calculateBitcoinDirectionIndex` in terms of the component functions; each
equation holds by definitional unfolding of the source algorithm. -/
lemma composeIndex_fields
    (liquidity : LiquidityData) (liquidityHistory : List ℝ)
    (pmi : ISMPMIData) (pmiHistory : List ℝ)
    (btcPrice : BitcoinPrice) (btcPriceHistory : List ℝ) (now : ℤ) :
    (calculateBitcoinDirectionIndex liquidity liquidityHistory pmi pmiHistory
        btcPrice btcPriceHistory now).liquidityZScore =
      calculateZScore liquidity.liquidity (calculateStats liquidityHistory).mean
        (calculateStats liquidityHistory).stdDev ∧
    (calculateBitcoinDirectionIndex liquidity liquidityHistory pmi pmiHistory
        btcPrice btcPriceHistory now).pmiZScore =
      calculateZScore (pmi.value - 50)
        (calculateStats (pmiHistory.map fun p => p - 50)).mean
        (calculateStats (pmiHistory.map fun p => p - 50)).stdDev ∧
    (calculateBitcoinDirectionIndex liquidity liquidityHistory pmi pmiHistory
        btcPrice btcPriceHistory now).btcTrend =
      calculateBTCTrend btcPrice.price btcPriceHistory ∧
    (calculateBitcoinDirectionIndex liquidity liquidityHistory pmi pmiHistory
        btcPrice btcPriceHistory now).timestamp = now ∧
    (calculateBitcoinDirectionIndex liquidity liquidityHistory pmi pmiHistory
        btcPrice btcPriceHistory now).index =
      ((jsRound (((0.4 * (max (-2) (min 2
          (calculateBitcoinDirectionIndex liquidity liquidityHistory pmi
            pmiHistory btcPrice btcPriceHistory now).liquidityZScore) / 2) +
        0.35 * (max (-2) (min 2
          (calculateBitcoinDirectionIndex liquidity liquidityHistory pmi
            pmiHistory btcPrice btcPriceHistory now).pmiZScore) / 2) +
        0.25 * (calculateBitcoinDirectionIndex liquidity liquidityHistory pmi
            pmiHistory btcPrice btcPriceHistory now).btcTrend + 1) / 2 * 100) *
        100) : ℤ) : ℝ) / 100 ∧
    (calculateBitcoinDirectionIndex liquidity liquidityHistory pmi pmiHistory
        btcPrice btcPriceHistory now).interpretation =
      interpretIndex ((0.4 * (max (-2) (min 2
          (calculateBitcoinDirectionIndex liquidity liquidityHistory pmi
            pmiHistory btcPrice btcPriceHistory now).liquidityZScore) / 2) +
        0.35 * (max (-2) (min 2
          (calculateBitcoinDirectionIndex liquidity liquidityHistory pmi
            pmiHistory btcPrice btcPriceHistory now).pmiZScore) / 2) +
        0.25 * (calculateBitcoinDirectionIndex liquidity liquidityHistory pmi
            pmiHistory btcPrice btcPriceHistory now).btcTrend + 1) / 2 * 100) :=
  ⟨rfl, rfl, rfl, rfl, rfl, rfl⟩

/-- C1: for every input (arbitrary snapshots and arbitrary, possibly empty,
histories) `calculateBitcoinDirectionIndex` returns a well-formed result: the
`index` field lies in `[0, 100]`, the `btcTrend` field lies in `[-1, 1]`, and
the interpretation is one of the five categories.  The function is total by
construction, so no input reaches an error path. -/
theorem composeIndex_wellFormed
    (liquidity : LiquidityData) (liquidityHistory : List ℝ)
    (pmi : ISMPMIData) (pmiHistory : List ℝ)
    (btcPrice : BitcoinPrice) (btcPriceHistory : List ℝ) (now : ℤ) :
    0 ≤ (calculateBitcoinDirectionIndex liquidity liquidityHistory pmi
        pmiHistory btcPrice btcPriceHistory now).index ∧
    (calculateBitcoinDirectionIndex liquidity liquidityHistory pmi
        pmiHistory btcPrice btcPriceHistory now).index ≤ 100 ∧
    (-1 ≤ (calculateBitcoinDirectionIndex liquidity liquidityHistory pmi
        pmiHistory btcPrice btcPriceHistory now).btcTrend ∧
      (calculateBitcoinDirectionIndex liquidity liquidityHistory pmi
        pmiHistory btcPrice btcPriceHistory now).btcTrend ≤ 1) ∧
    ((calculateBitcoinDirectionIndex liquidity liquidityHistory pmi
        pmiHistory btcPrice btcPriceHistory now).interpretation =
          .very_bearish ∨
      (calculateBitcoinDirectionIndex liquidity liquidityHistory pmi
        pmiHistory btcPrice btcPriceHistory now).interpretation = .bearish ∨
      (calculateBitcoinDirectionIndex liquidity liquidityHistory pmi
        pmiHistory btcPrice btcPriceHistory now).interpretation = .neutral ∨
      (calculateBitcoinDirectionIndex liquidity liquidityHistory pmi
        pmiHistory btcPrice btcPriceHistory now).interpretation = .bullish ∨
      (calculateBitcoinDirectionIndex liquidity liquidityHistory pmi
        pmiHistory btcPrice btcPriceHistory now).interpretation =
          .very_bullish) := by
  obtain ⟨hzL, hzP, ht, hts, hidx, hinterp⟩ := composeIndex_fields liquidity
    liquidityHistory pmi pmiHistory btcPrice btcPriceHistory now
  have hb := calculateBTCTrend_bounds btcPrice.price btcPriceHistory
  have hbt : -1 ≤ (calculateBitcoinDirectionIndex liquidity liquidityHistory
      pmi pmiHistory btcPrice btcPriceHistory now).btcTrend ∧
      (calculateBitcoinDirectionIndex liquidity liquidityHistory pmi
        pmiHistory btcPrice btcPriceHistory now).btcTrend ≤ 1 := by
    rw [ht]
    exact hb
  have hL := clamp_half_bounds (calculateBitcoinDirectionIndex liquidity
    liquidityHistory pmi pmiHistory btcPrice btcPriceHistory now).liquidityZScore
  have hP := clamp_half_bounds (calculateBitcoinDirectionIndex liquidity
    liquidityHistory pmi pmiHistory btcPrice btcPriceHistory now).pmiZScore
  have hy0 : (0 : ℝ) ≤ (0.4 * (max (-2) (min 2
      (calculateBitcoinDirectionIndex liquidity liquidityHistory pmi
        pmiHistory btcPrice btcPriceHistory now).liquidityZScore) / 2) +
      0.35 * (max (-2) (min 2
      (calculateBitcoinDirectionIndex liquidity liquidityHistory pmi
        pmiHistory btcPrice btcPriceHistory now).pmiZScore) / 2) +
      0.25 * (calculateBitcoinDirectionIndex liquidity liquidityHistory pmi
        pmiHistory btcPrice btcPriceHistory now).btcTrend + 1) / 2 * 100 := by
    have := hbt.1
    linarith [hL.1, hP.1]
  have hy1 : (0.4 * (max (-2) (min 2
      (calculateBitcoinDirectionIndex liquidity liquidityHistory pmi
        pmiHistory btcPrice btcPriceHistory now).liquidityZScore) / 2) +
      0.35 * (max (-2) (min 2
      (calculateBitcoinDirectionIndex liquidity liquidityHistory pmi
        pmiHistory btcPrice btcPriceHistory now).pmiZScore) / 2) +
      0.25 * (calculateBitcoinDirectionIndex liquidity liquidityHistory pmi
        pmiHistory btcPrice btcPriceHistory now).btcTrend + 1) / 2 * 100 ≤
      100 := by
    have := hbt.2
    linarith [hL.2, hP.2]
  have hr := jsRound_div_bounds _ hy0 hy1
  rw [hidx]
  exact ⟨hr.1, hr.2, hbt, interpretation_cases _⟩

/-- C3 counterexample: a concrete input whose returned `index` field is
exactly `20` while the returned interpretation is `very_bearish` — the
interpretation is chosen from the pre-rounding value `19.996`, which rounds
up to `20.00`, so the returned rounded index does not obey the claimed
threshold buckets. -/
theorem composeIndex_rounded_bucket_counterexample :
    (calculateBitcoinDirectionIndex ⟨0, 0, 0, -0.7504, 0⟩ [(0 : ℝ), 2]
      ⟨50, 0, none, none, none⟩ [] ⟨0, 0, none⟩
      [(100 : ℝ), 0, 0, 0, 0, 0, 0, 0] 0).index = 20 ∧
    (calculateBitcoinDirectionIndex ⟨0, 0, 0, -0.7504, 0⟩ [(0 : ℝ), 2]
      ⟨50, 0, none, none, none⟩ [] ⟨0, 0, none⟩
      [(100 : ℝ), 0, 0, 0, 0, 0, 0, 0] 0).interpretation =
      Interpretation.very_bearish := by
  obtain ⟨hzL, hzP, ht, hts, hidx, hinterp⟩ := composeIndex_fields
    ⟨0, 0, 0, -0.7504, 0⟩ [(0 : ℝ), 2] ⟨50, 0, none, none, none⟩ []
    ⟨0, 0, none⟩ [(100 : ℝ), 0, 0, 0, 0, 0, 0, 0] 0
  have hLm : (calculateStats [(0 : ℝ), 2]).mean = 1 := by
    rw [calculateStats_mean_of_ne_nil _ (by simp)]
    norm_num [arithmeticMean]
  have hpopL : populationStdDev [(0 : ℝ), 2] = 1 := by
    have harg : ((([(0 : ℝ), 2]).map fun v =>
        (v - arithmeticMean [(0 : ℝ), 2]) ^ 2).sum /
        ((([(0 : ℝ), 2]).length : ℕ) : ℝ)) = 1 := by
      norm_num [arithmeticMean]
    rw [populationStdDev, harg, Real.sqrt_one]
  have hLs : (calculateStats [(0 : ℝ), 2]).stdDev = 1 := by
    rw [calculateStats_stdDev_of_ne_nil _ (by simp), hpopL]
    norm_num
  have hz : (calculateBitcoinDirectionIndex ⟨0, 0, 0, -0.7504, 0⟩ [(0 : ℝ), 2]
      ⟨50, 0, none, none, none⟩ [] ⟨0, 0, none⟩
      [(100 : ℝ), 0, 0, 0, 0, 0, 0, 0] 0).liquidityZScore = -1.7504 := by
    rw [hzL, hLm, hLs]
    unfold calculateZScore
    norm_num
  have hzp : (calculateBitcoinDirectionIndex ⟨0, 0, 0, -0.7504, 0⟩
      [(0 : ℝ), 2] ⟨50, 0, none, none, none⟩ [] ⟨0, 0, none⟩
      [(100 : ℝ), 0, 0, 0, 0, 0, 0, 0] 0).pmiZScore = 0 := by
    rw [hzP]
    simp only [List.map_nil, calculateStats_nil]
    unfold calculateZScore
    norm_num
  have hshort : sliceLast 7 [(100 : ℝ), 0, 0, 0, 0, 0, 0, 0] =
      [0, 0, 0, 0, 0, 0, 0] := by
    simp [sliceLast]
  have hmed : sliceLast 30 [(100 : ℝ), 0, 0, 0, 0, 0, 0, 0] =
      [100, 0, 0, 0, 0, 0, 0, 0] := by
    simp [sliceLast]
  have htr : (calculateBitcoinDirectionIndex ⟨0, 0, 0, -0.7504, 0⟩
      [(0 : ℝ), 2] ⟨50, 0, none, none, none⟩ [] ⟨0, 0, none⟩
      [(100 : ℝ), 0, 0, 0, 0, 0, 0, 0] 0).btcTrend = -1 := by
    rw [ht]
    unfold calculateBTCTrend
    rw [if_neg (by norm_num)]
    dsimp only
    rw [hshort, hmed]
    rw [if_neg (by norm_num), if_neg (by norm_num)]
    have hfrac : (([(0 : ℝ), 0, 0, 0, 0, 0, 0].sum /
        (([(0 : ℝ), 0, 0, 0, 0, 0, 0].length : ℕ) : ℝ) -
        [(100 : ℝ), 0, 0, 0, 0, 0, 0, 0].sum /
        (([(100 : ℝ), 0, 0, 0, 0, 0, 0, 0].length : ℕ) : ℝ)) /
        ([(100 : ℝ), 0, 0, 0, 0, 0, 0, 0].sum /
        (([(100 : ℝ), 0, 0, 0, 0, 0, 0, 0].length : ℕ) : ℝ))) * 10 = -10 := by
      norm_num
    rw [hfrac]
    norm_num
  constructor
  · rw [hidx, hz, hzp, htr]
    have hmin : min (2 : ℝ) (-1.7504) = -1.7504 := by norm_num
    have hmax : max (-2 : ℝ) (-1.7504) = -1.7504 := by norm_num
    rw [hmin, hmax]
    have hminP : min (2 : ℝ) 0 = 0 := by norm_num
    have hmaxP : max (-2 : ℝ) 0 = 0 := by norm_num
    rw [hminP, hmaxP]
    have hval : ((0.4 * (-1.7504 / 2) + 0.35 * ((0 : ℝ) / 2) +
        0.25 * (-1) + 1) / 2 * 100) * 100 = 1999.6 := by norm_num
    rw [hval]
    have hflr : jsRound (1999.6 : ℝ) = 2000 := by
      unfold jsRound
      rw [Int.floor_eq_iff]
      norm_num
    rw [hflr]
    norm_num
  · rw [hinterp, hz, hzp, htr]
    have hval : (0.4 * (max (-2) (min 2 (-1.7504 : ℝ)) / 2) +
        0.35 * (max (-2) (min 2 (0 : ℝ)) / 2) + 0.25 * (-1) + 1) / 2 * 100 =
        19.996 := by
      norm_num
    rw [hval]
    unfold interpretIndex
    rw [if_pos (by norm_num)]

/-- C3 amended: the interpretation returned by `calculateBitcoinDirectionIndex`
is obtained by classifying the pre-rounding index value
`((raw + 1) / 2) * 100` with the fixed thresholds (`< 20` very_bearish,
`< 40` bearish, `< 60` neutral, `< 80` bullish, else very_bullish), with
boundaries exclusive on the upper side of each bucket; the returned `index`
field is that same value rounded to two decimals afterward, so the returned
rounded index can fall outside the bucket of the interpretation. -/
theorem composeIndex_interpretation_matches_unrounded
    (liquidity : LiquidityData) (liquidityHistory : List ℝ)
    (pmi : ISMPMIData) (pmiHistory : List ℝ)
    (btcPrice : BitcoinPrice) (btcPriceHistory : List ℝ) (now : ℤ) :
    (calculateBitcoinDirectionIndex liquidity liquidityHistory pmi pmiHistory
        btcPrice btcPriceHistory now).interpretation =
      interpretIndex ((0.4 * (max (-2) (min 2
          (calculateBitcoinDirectionIndex liquidity liquidityHistory pmi
            pmiHistory btcPrice btcPriceHistory now).liquidityZScore) / 2) +
        0.35 * (max (-2) (min 2
          (calculateBitcoinDirectionIndex liquidity liquidityHistory pmi
            pmiHistory btcPrice btcPriceHistory now).pmiZScore) / 2) +
        0.25 * (calculateBitcoinDirectionIndex liquidity liquidityHistory pmi
            pmiHistory btcPrice btcPriceHistory now).btcTrend + 1) / 2 * 100) ∧
    (calculateBitcoinDirectionIndex liquidity liquidityHistory pmi pmiHistory
        btcPrice btcPriceHistory now).index =
      ((jsRound (((0.4 * (max (-2) (min 2
          (calculateBitcoinDirectionIndex liquidity liquidityHistory pmi
            pmiHistory btcPrice btcPriceHistory now).liquidityZScore) / 2) +
        0.35 * (max (-2) (min 2
          (calculateBitcoinDirectionIndex liquidity liquidityHistory pmi
            pmiHistory btcPrice btcPriceHistory now).pmiZScore) / 2) +
        0.25 * (calculateBitcoinDirectionIndex liquidity liquidityHistory pmi
            pmiHistory btcPrice btcPriceHistory now).btcTrend + 1) / 2 * 100) *
        100) : ℤ) : ℝ) / 100 ∧
    interpretIndex 19.99 = .very_bearish ∧ interpretIndex 20 = .bearish ∧
    interpretIndex 39.99 = .bearish ∧ interpretIndex 40 = .neutral ∧
    interpretIndex 59.99 = .neutral ∧ interpretIndex 60 = .bullish ∧
    interpretIndex 79.99 = .bullish ∧ interpretIndex 80 = .very_bullish := by
  obtain ⟨hzL, hzP, ht, hts, hidx, hinterp⟩ := composeIndex_fields liquidity
    liquidityHistory pmi pmiHistory btcPrice btcPriceHistory now
  refine ⟨hinterp, hidx, ?_, ?_, ?_, ?_, ?_, ?_, ?_, ?_⟩ <;>
    · unfold interpretIndex
      norm_num

/-- C7 counterexample: `calculateBitcoinDirectionIndex` stamps the result with
the clock reading `Date.now()`, so two invocations with identical listed
arguments but different clock readings return different results (the
`timestamp` fields differ). -/
theorem composeIndex_determinism_counterexample :
    calculateBitcoinDirectionIndex ⟨0, 0, 0, 0, 0⟩ []
      ⟨0, 0, none, none, none⟩ [] ⟨0, 0, none⟩ [] 0 ≠
    calculateBitcoinDirectionIndex ⟨0, 0, 0, 0, 0⟩ []
      ⟨0, 0, none, none, none⟩ [] ⟨0, 0, none⟩ [] 1 := by
  intro h
  have h0 : (calculateBitcoinDirectionIndex ⟨0, 0, 0, 0, 0⟩ []
      ⟨0, 0, none, none, none⟩ [] ⟨0, 0, none⟩ [] 0).timestamp = 0 := rfl
  have h1 : (calculateBitcoinDirectionIndex ⟨0, 0, 0, 0, 0⟩ []
      ⟨0, 0, none, none, none⟩ [] ⟨0, 0, none⟩ [] 1).timestamp = 1 := rfl
  rw [h, h1] at h0
  exact absurd h0 (by norm_num)

/-- C7 amended: every core operation is a pure function of its explicit inputs
plus, for `calculateBitcoinDirectionIndex` only, the clock reading that the
source takes from `Date.now()`: with the clock reading held fixed two
invocations with identical arguments return identical results, and every field
except `timestamp` is independent of the clock reading. -/
theorem composeIndex_deterministic_given_clock
    (liquidity : LiquidityData) (liquidityHistory : List ℝ)
    (pmi : ISMPMIData) (pmiHistory : List ℝ)
    (btcPrice : BitcoinPrice) (btcPriceHistory : List ℝ) (now₁ now₂ : ℤ) :
    ((calculateBitcoinDirectionIndex liquidity liquidityHistory pmi pmiHistory
        btcPrice btcPriceHistory now₁).index =
      (calculateBitcoinDirectionIndex liquidity liquidityHistory pmi pmiHistory
        btcPrice btcPriceHistory now₂).index ∧
      (calculateBitcoinDirectionIndex liquidity liquidityHistory pmi pmiHistory
        btcPrice btcPriceHistory now₁).liquidityZScore =
      (calculateBitcoinDirectionIndex liquidity liquidityHistory pmi pmiHistory
        btcPrice btcPriceHistory now₂).liquidityZScore ∧
      (calculateBitcoinDirectionIndex liquidity liquidityHistory pmi pmiHistory
        btcPrice btcPriceHistory now₁).pmiZScore =
      (calculateBitcoinDirectionIndex liquidity liquidityHistory pmi pmiHistory
        btcPrice btcPriceHistory now₂).pmiZScore ∧
      (calculateBitcoinDirectionIndex liquidity liquidityHistory pmi pmiHistory
        btcPrice btcPriceHistory now₁).btcTrend =
      (calculateBitcoinDirectionIndex liquidity liquidityHistory pmi pmiHistory
        btcPrice btcPriceHistory now₂).btcTrend ∧
      (calculateBitcoinDirectionIndex liquidity liquidityHistory pmi pmiHistory
        btcPrice btcPriceHistory now₁).interpretation =
      (calculateBitcoinDirectionIndex liquidity liquidityHistory pmi pmiHistory
        btcPrice btcPriceHistory now₂).interpretation) ∧
    (now₁ = now₂ →
      calculateBitcoinDirectionIndex liquidity liquidityHistory pmi pmiHistory
        btcPrice btcPriceHistory now₁ =
      calculateBitcoinDirectionIndex liquidity liquidityHistory pmi pmiHistory
        btcPrice btcPriceHistory now₂) :=
  ⟨⟨rfl, rfl, rfl, rfl, rfl⟩, fun h => by rw [h]⟩

/-- Witness for C7's amended claim at a concrete input with equal clock
readings. -/
theorem composeIndex_deterministic_given_clock_witness :
    calculateBitcoinDirectionIndex ⟨0, 0, 0, 0, 0⟩ []
      ⟨0, 0, none, none, none⟩ [] ⟨0, 0, none⟩ [] 5 =
    calculateBitcoinDirectionIndex ⟨0, 0, 0, 0, 0⟩ []
      ⟨0, 0, none, none, none⟩ [] ⟨0, 0, none⟩ [] 5 :=
  (composeIndex_deterministic_given_clock ⟨0, 0, 0, 0, 0⟩ []
    ⟨0, 0, none, none, none⟩ [] ⟨0, 0, none⟩ [] 5 5).2 rfl

lemma range_sum_getD_eq_zip (f : ℝ → ℝ → ℝ) :
    ∀ (xs ys : List ℝ), xs.length = ys.length →
      ((List.range xs.length).map fun i => f (xs.getD i 0) (ys.getD i 0)).sum =
      ((xs.zip ys).map fun p => f p.1 p.2).sum := by
  intro xs
  induction xs with
  | nil => intro ys h; simp
  | cons x xs ih =>
      intro ys h
      cases ys with
      | nil => simp at h
      | cons y ys =>
          have hlen : xs.length = ys.length := by simpa using h
          simp only [List.length_cons, List.range_succ_eq_map, List.map_cons,
            List.sum_cons, List.getD_cons_zero, List.map_map,
            List.zip_cons_cons]
          congr 1
          rw [← ih ys hlen]
          refine congrArg List.sum (List.map_congr_left fun i _ => ?_)
          simp [List.getD_cons_succ]

lemma zip_sum_fst (g : ℝ → ℝ) :
    ∀ (xs ys : List ℝ), xs.length = ys.length →
      ((xs.zip ys).map fun p => g p.1).sum = (xs.map g).sum := by
  intro xs
  induction xs with
  | nil => intro ys h; simp
  | cons x xs ih =>
      intro ys h
      cases ys with
      | nil => simp at h
      | cons y ys =>
          have hlen : xs.length = ys.length := by simpa using h
          simp only [List.zip_cons_cons, List.map_cons, List.sum_cons]
          rw [ih ys hlen]

lemma zip_sum_snd (g : ℝ → ℝ) :
    ∀ (xs ys : List ℝ), xs.length = ys.length →
      ((xs.zip ys).map fun p => g p.2).sum = (ys.map g).sum := by
  intro xs
  induction xs with
  | nil =>
      intro ys h
      have : ys = [] := List.length_eq_zero.mp h.symm
      simp [this]
  | cons x xs ih =>
      intro ys h
      cases ys with
      | nil => simp at h
      | cons y ys =>
          have hlen : xs.length = ys.length := by simpa using h
          simp only [List.zip_cons_cons, List.map_cons, List.sum_cons]
          rw [ih ys hlen]

lemma zip_self_sum (g : ℝ → ℝ → ℝ) :
    ∀ (l : List ℝ),
      ((l.zip l).map fun p => g p.1 p.2).sum = (l.map fun x => g x x).sum := by
  intro l
  induction l with
  | nil => simp
  | cons x xs ih =>
      simp only [List.zip_cons_cons, List.map_cons, List.sum_cons]
      rw [ih]

lemma zip_map_self_sum (g : ℝ → ℝ → ℝ) (f : ℝ → ℝ) :
    ∀ (l : List ℝ),
      ((l.zip (l.map f)).map fun p => g p.1 p.2).sum =
        (l.map fun x => g x (f x)).sum := by
  intro l
  induction l with
  | nil => simp
  | cons x xs ih =>
      simp only [List.map_cons, List.zip_cons_cons, List.sum_cons]
      rw [ih]

lemma sumSqDev_nonneg (xs : List ℝ) : 0 ≤ sumSqDev xs := by
  refine List.sum_nonneg fun x hx => ?_
  obtain ⟨a, _, rfl⟩ := List.mem_map.mp hx
  positivity

lemma sum_nonneg_eq_zero (l : List ℝ) (hpos : ∀ x ∈ l, 0 ≤ x)
    (hsum : l.sum = 0) : ∀ x ∈ l, x = 0 := by
  induction l with
  | nil => simp
  | cons x xs ih =>
      have hx : 0 ≤ x := hpos x (by simp)
      have hxs : 0 ≤ xs.sum :=
        List.sum_nonneg fun y hy => hpos y (List.mem_cons_of_mem _ hy)
      rw [List.sum_cons] at hsum
      have hx0 : x = 0 := by linarith
      intro y hy
      rcases List.mem_cons.mp hy with rfl | hy'
      · exact hx0
      · exact ih (fun z hz => hpos z (List.mem_cons_of_mem _ hz))
          (by linarith) y hy'

lemma sumSqDev_pos_of_nonconstant (xs : List ℝ)
    (hnc : ∃ a ∈ xs, ∃ b ∈ xs, a ≠ b) : 0 < sumSqDev xs := by
  rcases hnc with ⟨a, ha, b, hb, hab⟩
  rcases lt_or_eq_of_le (sumSqDev_nonneg xs) with h | h
  · exact h
  · exfalso
    have hz : ∀ y ∈ xs.map fun x => (x - arithmeticMean xs) ^ 2, y = 0 :=
      sum_nonneg_eq_zero _
        (fun y hy => by
          obtain ⟨c, _, rfl⟩ := List.mem_map.mp hy
          positivity) h.symm
    have hmem : ∀ c ∈ xs, c = arithmeticMean xs := by
      intro c hc
      have := hz ((c - arithmeticMean xs) ^ 2)
        (List.mem_map.mpr ⟨c, hc, rfl⟩)
      have hsq : c - arithmeticMean xs = 0 := by
        exact pow_eq_zero_iff (by norm_num) |>.mp this
      linarith
    exact hab ((hmem a ha).trans (hmem b hb).symm)

lemma calculateCorrelation_eq (xs ys : List ℝ) (h : xs.length = ys.length)
    (h2 : 2 ≤ xs.length) :
    calculateCorrelation xs ys =
      if Real.sqrt (sumSqDev xs * sumSqDev ys) = 0 then 0
      else pearsonNumerator xs ys / Real.sqrt (sumSqDev xs * sumSqDev ys) := by
  have hcond : ¬ (xs.length ≠ ys.length ∨ xs.length < 2) := by
    push_neg
    exact ⟨h, by omega⟩
  unfold calculateCorrelation
  rw [if_neg hcond]
  dsimp only
  have hmy : ys.sum / ((xs.length : ℕ) : ℝ) = arithmeticMean ys := by
    rw [arithmeticMean, h]
  have hmx : xs.sum / ((xs.length : ℕ) : ℝ) = arithmeticMean xs := rfl
  rw [hmy, hmx]
  have hnum : ((List.range xs.length).map fun i =>
      (xs.getD i 0 - arithmeticMean xs) *
      (ys.getD i 0 - arithmeticMean ys)).sum = pearsonNumerator xs ys := by
    rw [range_sum_getD_eq_zip
      (fun a b => (a - arithmeticMean xs) * (b - arithmeticMean ys)) xs ys h]
    rfl
  have hvx : ((List.range xs.length).map fun i =>
      (xs.getD i 0 - arithmeticMean xs) *
      (xs.getD i 0 - arithmeticMean xs)).sum = sumSqDev xs := by
    rw [range_sum_getD_eq_zip
      (fun a b => (a - arithmeticMean xs) * (b - arithmeticMean xs)) xs xs rfl]
    rw [zip_self_sum (fun a b => (a - arithmeticMean xs) * (b - arithmeticMean xs)) xs]
    refine congrArg List.sum (List.map_congr_left fun c _ => ?_)
    ring
  have hvy : ((List.range xs.length).map fun i =>
      (ys.getD i 0 - arithmeticMean ys) *
      (ys.getD i 0 - arithmeticMean ys)).sum = sumSqDev ys := by
    rw [range_sum_getD_eq_zip
      (fun a b => (b - arithmeticMean ys) * (b - arithmeticMean ys)) xs ys h]
    rw [zip_sum_snd (fun b => (b - arithmeticMean ys) * (b - arithmeticMean ys)) xs ys h]
    refine congrArg List.sum (List.map_congr_left fun c _ => ?_)
    ring
  rw [hnum, hvx, hvy]

/-- C8: `calculateCorrelation` returns `0` when the inputs differ in length,
have length below two, or the denominator
`sqrt(sum((x-meanX)^2) * sum((y-meanY)^2))` is zero; otherwise it returns the
standard Pearson formula. -/
theorem calculateCorrelation_spec (xs ys : List ℝ) :
    (xs.length ≠ ys.length ∨ xs.length < 2 →
      calculateCorrelation xs ys = 0) ∧
    (xs.length = ys.length → 2 ≤ xs.length →
      (Real.sqrt (sumSqDev xs * sumSqDev ys) = 0 →
        calculateCorrelation xs ys = 0) ∧
      (Real.sqrt (sumSqDev xs * sumSqDev ys) ≠ 0 →
        calculateCorrelation xs ys =
          pearsonNumerator xs ys /
            Real.sqrt (sumSqDev xs * sumSqDev ys))) := by
  constructor
  · intro h
    unfold calculateCorrelation
    rw [if_pos h]
  · intro h h2
    rw [calculateCorrelation_eq xs ys h h2]
    constructor
    · intro hz
      rw [if_pos hz]
    · intro hz
      rw [if_neg hz]

/-- Witness for C8 at `[1, 2]` against itself (nonzero denominator branch) and
at the length-mismatched pair `([1], [1, 2])`. -/
theorem calculateCorrelation_spec_witness :
    calculateCorrelation [(1 : ℝ), 2] [(1 : ℝ), 2] = 1 ∧
    calculateCorrelation [(1 : ℝ)] [(1 : ℝ), 2] = 0 := by
  have hS : sumSqDev [(1 : ℝ), 2] = 1 / 2 := by
    norm_num [sumSqDev, arithmeticMean]
  have hden : Real.sqrt (sumSqDev [(1 : ℝ), 2] * sumSqDev [(1 : ℝ), 2]) =
      1 / 2 := by
    rw [hS, Real.sqrt_mul_self (by norm_num)]
  have hnum : pearsonNumerator [(1 : ℝ), 2] [(1 : ℝ), 2] = 1 / 2 := by
    norm_num [pearsonNumerator, arithmeticMean]
  have h := (calculateCorrelation_spec [(1 : ℝ), 2] [(1 : ℝ), 2]).2 rfl
    (by norm_num)
  refine ⟨?_, (calculateCorrelation_spec [(1 : ℝ)] [(1 : ℝ), 2]).1
    (by norm_num)⟩
  rw [h.2 (by rw [hden]; norm_num), hden, hnum]
  norm_num

lemma sum_map_neg_fn (f : ℝ → ℝ) :
    ∀ (l : List ℝ), (l.map fun x => -(f x)).sum = -((l.map f).sum) := by
  intro l
  induction l with
  | nil => simp
  | cons x xs ih =>
      simp only [List.map_cons, List.sum_cons, ih]
      ring

lemma arithmeticMean_map_neg (xs : List ℝ) :
    arithmeticMean (xs.map fun x => -x) = -arithmeticMean xs := by
  unfold arithmeticMean
  rw [List.length_map]
  rw [show (xs.map fun x => -x) = xs.map fun x => -(id x) by rfl]
  rw [sum_map_neg_fn id xs]
  simp [neg_div]

lemma sumSqDev_map_neg (xs : List ℝ) :
    sumSqDev (xs.map fun x => -x) = sumSqDev xs := by
  unfold sumSqDev
  rw [arithmeticMean_map_neg, List.map_map]
  refine congrArg List.sum (List.map_congr_left fun c _ => ?_)
  simp only [Function.comp_apply]
  ring

/-- C9: the correlation of a non-constant series of length at least two with
itself is exactly `1`, with its negation exactly `-1`, and the correlation of
mismatched-length inputs is `0`. -/
theorem calculateCorrelation_algebraic (xs ys : List ℝ) :
    (2 ≤ xs.length → (∃ a ∈ xs, ∃ b ∈ xs, a ≠ b) →
      calculateCorrelation xs xs = 1 ∧
      calculateCorrelation xs (xs.map fun x => -x) = -1) ∧
    (xs.length ≠ ys.length → calculateCorrelation xs ys = 0) := by
  constructor
  · intro h2 hnc
    have hS : 0 < sumSqDev xs := sumSqDev_pos_of_nonconstant xs hnc
    constructor
    · rw [calculateCorrelation_eq xs xs rfl h2]
      have hden : Real.sqrt (sumSqDev xs * sumSqDev xs) = sumSqDev xs :=
        Real.sqrt_mul_self hS.le
      rw [if_neg (by rw [hden]; exact hS.ne')]
      have hnum : pearsonNumerator xs xs = sumSqDev xs := by
        unfold pearsonNumerator sumSqDev
        rw [zip_self_sum
          (fun a b => (a - arithmeticMean xs) * (b - arithmeticMean xs)) xs]
        refine congrArg List.sum (List.map_congr_left fun c _ => ?_)
        ring
      rw [hnum, hden, div_self hS.ne']
    · rw [calculateCorrelation_eq xs (xs.map fun x => -x)
        (by rw [List.length_map]) h2]
      have hden : Real.sqrt (sumSqDev xs * sumSqDev (xs.map fun x => -x)) =
          sumSqDev xs := by
        rw [sumSqDev_map_neg, Real.sqrt_mul_self hS.le]
      rw [if_neg (by rw [hden]; exact hS.ne')]
      have hnum : pearsonNumerator xs (xs.map fun x => -x) = -sumSqDev xs := by
        unfold pearsonNumerator
        rw [arithmeticMean_map_neg]
        rw [zip_map_self_sum
          (fun a b => (a - arithmeticMean xs) * (b - -arithmeticMean xs))
          (fun x => -x) xs]
        unfold sumSqDev
        rw [show (xs.map fun x =>
            (x - arithmeticMean xs) * (-x - -arithmeticMean xs)) =
            xs.map fun x => -((x - arithmeticMean xs) ^ 2) by
          refine List.map_congr_left fun c _ => ?_
          ring]
        rw [sum_map_neg_fn (fun x => (x - arithmeticMean xs) ^ 2) xs]
      rw [hnum, hden, neg_div, div_self hS.ne']
  · intro h
    unfold calculateCorrelation
    rw [if_pos (Or.inl h)]

/-- Witness for C9 at the non-constant series `[0, 1]` and the
length-mismatched pair `([0], [0, 1])`. -/
theorem calculateCorrelation_algebraic_witness :
    calculateCorrelation [(0 : ℝ), 1] [(0 : ℝ), 1] = 1 ∧
    calculateCorrelation [(0 : ℝ), 1] [(0 : ℝ), -1] = -1 ∧
    calculateCorrelation [(0 : ℝ)] [(0 : ℝ), 1] = 0 := by
  have h := (calculateCorrelation_algebraic [(0 : ℝ), 1] []).1 (by norm_num)
    ⟨0, by simp, 1, by simp, by norm_num⟩
  have hmap : ([(0 : ℝ), 1].map fun x => -x) = [(0 : ℝ), -1] := by
    norm_num
  refine ⟨h.1, ?_, (calculateCorrelation_algebraic [(0 : ℝ)] [(0 : ℝ), 1]).2
    (by norm_num)⟩
  have := h.2
  rw [hmap] at this
  exact this

lemma find?_desc_max (target : ℕ) :
    ∀ (l : List (ℕ × ℚ)), (l.Pairwise fun a b => b.1 ≤ a.1) →
      ∀ e, (l.find? fun x => decide (x.1 ≤ target)) = some e →
      ∀ e' ∈ l, e'.1 ≤ target → e'.1 ≤ e.1 := by
  intro l
  induction l with
  | nil => simp
  | cons x xs ih =>
      intro hp e hfind e' he' hle
      obtain ⟨hx, hxs⟩ := List.pairwise_cons.mp hp
      by_cases hcond : x.1 ≤ target
      · rw [List.find?_cons_of_pos _ (by simpa using hcond)] at hfind
        obtain rfl : x = e := Option.some.inj hfind
        rcases List.mem_cons.mp he' with rfl | hm
        · exact le_refl _
        · exact hx e' hm
      · rw [List.find?_cons_of_neg _ (by simpa using hcond)] at hfind
        rcases List.mem_cons.mp he' with rfl | hm
        · exact absurd hle hcond
        · exact ih hxs e hfind e' hm hle

/-- C4: over a date-sorted series, the forward-fill join yields no value
exactly when no entry has a date at most the target; otherwise its result
is an entry of the series with date at most the target and maximal among
such entries (the first hit of the backward scan); the PMI caller defaults
a missing value to 50 and the liquidity caller skips the point. -/
theorem forwardFill_spec (entries : List (ℕ × ℚ)) (target : ℕ)
    (hs : entries.Pairwise fun a b => a.1 ≤ b.1) :
    (findLatestOnOrBefore entries target = none ↔
      ∀ e ∈ entries, ¬ e.1 ≤ target) ∧
    (∀ e, findLatestOnOrBefore entries target = some e →
      e ∈ entries ∧ e.1 ≤ target ∧
      ∀ e' ∈ entries, e'.1 ≤ target → e'.1 ≤ e.1) ∧
    (findLatestOnOrBefore entries target = none →
      pmiValueAt entries target = 50 ∧
      liquidityValueAt entries target = none) ∧
    (∀ e, findLatestOnOrBefore entries target = some e →
      pmiValueAt entries target = e.2 ∧
      liquidityValueAt entries target = some e.2) := by
  refine ⟨?_, fun e he => ?_, fun hn => ?_, fun e he => ?_⟩
  · unfold findLatestOnOrBefore
    rw [List.find?_eq_none]
    constructor
    · intro h e he
      have := h e (List.mem_reverse.mpr he)
      simpa using this
    · intro h e he
      have := h e (List.mem_reverse.mp he)
      simpa using this
  · have hmem : e ∈ entries.reverse := List.mem_of_find?_eq_some he
    have hprop : e.1 ≤ target := by
      have := List.find?_some he
      simpa using this
    have hrev : entries.reverse.Pairwise fun a b => b.1 ≤ a.1 :=
      List.pairwise_reverse.mpr hs
    refine ⟨List.mem_reverse.mp hmem, hprop, fun e' he' hle => ?_⟩
    exact find?_desc_max target entries.reverse hrev e he e'
      (List.mem_reverse.mpr he') hle
  · unfold pmiValueAt liquidityValueAt
    rw [hn]
    exact ⟨rfl, rfl⟩
  · unfold pmiValueAt liquidityValueAt
    rw [he]
    exact ⟨rfl, rfl⟩

/-- Witness for C4 at the spec's example series
`[2024-01-01 ↦ 1, 2024-02-01 ↦ 2]` (dates written as `YYYYMMDD` numerals):
a query between the two observations forward-fills to the first, a query
before all observations is absent (PMI caller defaults to 50, liquidity
caller skips), and a query after all observations takes the latest. -/
theorem forwardFill_spec_witness :
    findLatestOnOrBefore [(20240101, 1), (20240201, 2)] 20240115 =
      some (20240101, 1) ∧
    (20240101 : ℕ) ≤ 20240115 ∧
    findLatestOnOrBefore [(20240101, 1), (20240201, 2)] 20231201 = none ∧
    pmiValueAt [(20240101, 1), (20240201, 2)] 20231201 = 50 ∧
    liquidityValueAt [(20240101, 1), (20240201, 2)] 20231201 = none ∧
    findLatestOnOrBefore [(20240101, 1), (20240201, 2)] 20240301 =
      some (20240201, 2) := by
  have h1 := forwardFill_spec [(20240101, 1), (20240201, 2)] 20240115
    (by decide)
  have h2 := forwardFill_spec [(20240101, 1), (20240201, 2)] 20231201
    (by decide)
  refine ⟨by decide, (h1.2.1 (20240101, 1) (by decide)).2.1, by decide,
    (h2.2.2.1 (by decide)).1, (h2.2.2.1 (by decide)).2, by decide⟩

lemma closestFold_some (bt : ℤ) :
    ∀ (m : List (ℤ × ℚ)) (p : ℤ × ℚ),
      ∃ q, m.foldl (closestStep bt) (some p) = some q := by
  intro m
  induction m with
  | nil => exact fun p => ⟨p, rfl⟩
  | cons x xs ih =>
      intro p
      obtain ⟨cd, ci⟩ := p
      simp only [List.foldl_cons]
      unfold closestStep
      dsimp only
      split
      · exact ih _
      · exact ih _

lemma closestStep_none_pos (bt : ℤ) (x : ℤ × ℚ)
    (hc : |bt - x.1| < 86400000) :
    closestStep bt none x = some (|bt - x.1|, x.2) := by
  unfold closestStep
  dsimp only
  rw [if_pos hc]

lemma closestStep_none_neg (bt : ℤ) (x : ℤ × ℚ)
    (hc : ¬ |bt - x.1| < 86400000) :
    closestStep bt none x = none := by
  unfold closestStep
  dsimp only
  rw [if_neg hc]

lemma closestFold_none_iff (bt : ℤ) :
    ∀ (m : List (ℤ × ℚ)),
      (m.foldl (closestStep bt) none = none ↔
        ∀ e ∈ m, ¬ |bt - e.1| < 86400000) := by
  intro m
  induction m with
  | nil => simp
  | cons x xs ih =>
      simp only [List.foldl_cons]
      constructor
      · intro h
        by_cases hc : |bt - x.1| < 86400000
        · exfalso
          rw [closestStep_none_pos bt x hc] at h
          obtain ⟨q, hq⟩ := closestFold_some bt xs (|bt - x.1|, x.2)
          rw [hq] at h
          exact Option.noConfusion h
        · rw [closestStep_none_neg bt x hc] at h
          intro e he
          rcases List.mem_cons.mp he with rfl | hm
          · exact hc
          · exact ih.mp h e hm
      · intro h
        have hc : ¬ |bt - x.1| < 86400000 := h x (by simp)
        rw [closestStep_none_neg bt x hc]
        exact ih.mpr fun e he => h e (List.mem_cons_of_mem _ he)

lemma closestFold_min (bt : ℤ) :
    ∀ (m : List (ℤ × ℚ)) (acc : Option (ℤ × ℚ)) (r : ℤ × ℚ),
      m.foldl (closestStep bt) acc = some r →
      (acc = some r ∨
        ∃ e ∈ m, |bt - e.1| = r.1 ∧ e.2 = r.2 ∧ r.1 < 86400000) ∧
      (∀ e ∈ m, |bt - e.1| < 86400000 → r.1 ≤ |bt - e.1|) ∧
      (∀ a : ℤ × ℚ, acc = some a → r.1 ≤ a.1) := by
  intro m
  induction m with
  | nil =>
      intro acc r h
      simp only [List.foldl_nil] at h
      refine ⟨Or.inl h, by simp, fun a ha => ?_⟩
      rw [h] at ha
      obtain rfl : r = a := Option.some.inj ha
      exact le_refl _
  | cons x xs ih =>
      intro acc r h
      simp only [List.foldl_cons] at h
      obtain ⟨h1, h2, h3⟩ := ih (closestStep bt acc x) r h
      cases acc with
      | none =>
          by_cases hc : |bt - x.1| < 86400000
          · have hstep := closestStep_none_pos bt x hc
            have hr1 : r.1 ≤ |bt - x.1| := h3 (|bt - x.1|, x.2) (by rw [hstep])
            refine ⟨?_, fun e he hd => ?_, by simp⟩
            · rcases h1 with heq | ⟨e, he, hd⟩
              · rw [hstep] at heq
                obtain rfl : (|bt - x.1|, x.2) = r := Option.some.inj heq
                exact Or.inr ⟨x, by simp, rfl, rfl, hc⟩
              · exact Or.inr ⟨e, List.mem_cons_of_mem _ he, hd⟩
            · rcases List.mem_cons.mp he with rfl | hm
              · exact hr1
              · exact h2 e hm hd
          · have hstep := closestStep_none_neg bt x hc
            rw [hstep] at h1 h3
            refine ⟨?_, fun e he hd => ?_, by simp⟩
            · rcases h1 with heq | ⟨e, he, hd⟩
              · exact Option.noConfusion heq
              · exact Or.inr ⟨e, List.mem_cons_of_mem _ he, hd⟩
            · rcases List.mem_cons.mp he with rfl | hm
              · exact absurd hd hc
              · exact h2 e hm hd
      | some a =>
          obtain ⟨cd, ci⟩ := a
          by_cases hcond : |bt - x.1| < 86400000 ∧ |bt - x.1| < cd
          · have hstep : closestStep bt (some (cd, ci)) x =
                some (|bt - x.1|, x.2) := by
              unfold closestStep
              dsimp only
              rw [if_pos hcond]
            rw [hstep] at h1 h3
            have hr1 : r.1 ≤ |bt - x.1| := h3 (|bt - x.1|, x.2) rfl
            refine ⟨?_, fun e he hd => ?_, fun b hb => ?_⟩
            · rcases h1 with heq | ⟨e, he, hd⟩
              · obtain rfl : (|bt - x.1|, x.2) = r := Option.some.inj heq
                exact Or.inr ⟨x, by simp, rfl, rfl, hcond.1⟩
              · exact Or.inr ⟨e, List.mem_cons_of_mem _ he, hd⟩
            · rcases List.mem_cons.mp he with rfl | hm
              · exact hr1
              · exact h2 e hm hd
            · obtain rfl : (cd, ci) = b := Option.some.inj hb
              exact le_of_lt (lt_of_le_of_lt hr1 hcond.2)
          · have hstep : closestStep bt (some (cd, ci)) x = some (cd, ci) := by
              unfold closestStep
              dsimp only
              rw [if_neg hcond]
            rw [hstep] at h1 h3
            have hr1 : r.1 ≤ cd := h3 (cd, ci) rfl
            refine ⟨?_, fun e he hd => ?_, fun b hb => ?_⟩
            · rcases h1 with heq | ⟨e, he, hd⟩
              · exact Or.inl heq
              · exact Or.inr ⟨e, List.mem_cons_of_mem _ he, hd⟩
            · rcases List.mem_cons.mp he with rfl | hm
              · have hcd : cd ≤ |bt - e.1| := by
                  by_contra hlt
                  push_neg at hlt
                  exact hcond ⟨hd, hlt⟩
                exact le_trans hr1 hcd
              · exact h2 e hm hd
            · obtain rfl : (cd, ci) = b := Option.some.inj hb
              exact hr1

lemma closestWithin24h_none_iff (m : List (ℤ × ℚ)) (bt : ℤ) :
    closestWithin24h m bt = none ↔
      ∀ e ∈ m, ¬ |bt - e.1| < 86400000 := by
  unfold closestWithin24h
  rw [Option.map_eq_none']
  exact closestFold_none_iff bt m

lemma closestWithin24h_some (m : List (ℤ × ℚ)) (bt : ℤ) (v : ℚ)
    (h : closestWithin24h m bt = some v) :
    ∃ e ∈ m, e.2 = v ∧ |bt - e.1| < 86400000 ∧
      ∀ e' ∈ m, |bt - e'.1| < 86400000 → |bt - e.1| ≤ |bt - e'.1| := by
  unfold closestWithin24h at h
  obtain ⟨r, hr, hv⟩ := Option.map_eq_some'.mp h
  obtain ⟨h1, h2, _⟩ := closestFold_min bt m none r hr
  rcases h1 with habs | ⟨e, he, hd1, hd2, hdT⟩
  · exact Option.noConfusion habs
  · refine ⟨e, he, by rw [hd2, hv], by rw [hd1]; exact hdT,
      fun e' he' hd' => ?_⟩
    rw [hd1]
    exact h2 e' he' hd'

lemma indexMapInsert_mem (m : List (ℤ × ℚ)) (k : ℤ) (v : ℚ) :
    ∀ x ∈ indexMapInsert m k v, x ∈ m ∨ x = (k, v) := by
  unfold indexMapInsert
  split
  · intro x hx
    obtain ⟨e, he, hev⟩ := List.mem_map.mp hx
    by_cases hek : e.1 = k
    · right
      rw [← hev, if_pos hek]
    · left
      rw [← hev, if_neg hek]
      exact he
  · intro x hx
    rcases List.mem_append.mp hx with h | h
    · exact Or.inl h
    · right
      simpa using h

lemma foldl_insert_mem (pts : List (ℤ × ℚ)) :
    ∀ (m0 : List (ℤ × ℚ)) (x : ℤ × ℚ),
      x ∈ pts.foldl (fun m p => indexMapInsert m p.1 p.2) m0 →
      x ∈ m0 ∨ x ∈ pts := by
  induction pts with
  | nil => exact fun m0 x hx => Or.inl hx
  | cons p ps ih =>
      intro m0 x hx
      simp only [List.foldl_cons] at hx
      rcases ih _ x hx with h | h
      · rcases indexMapInsert_mem m0 p.1 p.2 x h with h' | h'
        · exact Or.inl h'
        · refine Or.inr ?_
          rw [h']
          simp
      · exact Or.inr (List.mem_cons_of_mem _ h)

lemma buildIndexMap_mem (pts : List (ℤ × ℚ)) :
    ∀ x ∈ buildIndexMap pts, x ∈ pts := by
  intro x hx
  rcases foldl_insert_mem pts [] x hx with h | h
  · exact absurd h (List.not_mem_nil x)
  · exact h

lemma indexMapInsert_ne_nil (m : List (ℤ × ℚ)) (k : ℤ) (v : ℚ) :
    indexMapInsert m k v ≠ [] := by
  unfold indexMapInsert
  split
  · rename_i hany
    intro h
    rw [List.map_eq_nil_iff] at h
    rw [h] at hany
    simp at hany
  · intro h
    rcases List.append_eq_nil.mp h with ⟨_, h2⟩
    exact List.noConfusion h2

lemma foldl_insert_ne_nil (pts : List (ℤ × ℚ)) :
    ∀ (m0 : List (ℤ × ℚ)), m0 ≠ [] →
      pts.foldl (fun m p => indexMapInsert m p.1 p.2) m0 ≠ [] := by
  induction pts with
  | nil => exact fun m0 h => h
  | cons p ps ih =>
      intro m0 _
      simp only [List.foldl_cons]
      exact ih _ (indexMapInsert_ne_nil m0 p.1 p.2)

lemma buildIndexMap_eq_nil_iff (pts : List (ℤ × ℚ)) :
    buildIndexMap pts = [] ↔ pts = [] := by
  constructor
  · intro h
    cases pts with
    | nil => rfl
    | cons p ps =>
        exfalso
        unfold buildIndexMap at h
        simp only [List.foldl_cons] at h
        exact foldl_insert_ne_nil ps (indexMapInsert [] p.1 p.2)
          (indexMapInsert_ne_nil [] p.1 p.2) h
  · intro h
    rw [h]
    rfl

lemma indexMapInsert_keys (m : List (ℤ × ℚ)) (k : ℤ) (v : ℚ) :
    (∀ x ∈ m, ∃ y ∈ indexMapInsert m k v, y.1 = x.1) ∧
      ∃ y ∈ indexMapInsert m k v, y.1 = k := by
  unfold indexMapInsert
  split
  · rename_i hany
    constructor
    · intro x hx
      refine ⟨if x.1 = k then (k, v) else x, List.mem_map.mpr ⟨x, hx, rfl⟩, ?_⟩
      split
      · rename_i hxk
        rw [hxk]
      · rfl
    · obtain ⟨e, he, hek⟩ := List.any_eq_true.mp hany
      have hek' : e.1 = k := of_decide_eq_true hek
      refine ⟨if e.1 = k then (k, v) else e,
        List.mem_map.mpr ⟨e, he, rfl⟩, ?_⟩
      rw [if_pos hek']
  · constructor
    · intro x hx
      exact ⟨x, List.mem_append_left _ hx, rfl⟩
    · exact ⟨(k, v), List.mem_append_right _ (by simp), rfl⟩

lemma foldl_insert_keys (pts : List (ℤ × ℚ)) :
    ∀ (m0 : List (ℤ × ℚ)) (t : ℤ),
      ((∃ x ∈ m0, x.1 = t) ∨ ∃ p ∈ pts, p.1 = t) →
      ∃ e ∈ pts.foldl (fun m p => indexMapInsert m p.1 p.2) m0, e.1 = t := by
  induction pts with
  | nil =>
      intro m0 t h
      rcases h with h | h
      · exact h
      · obtain ⟨p, hp, _⟩ := h
        exact absurd hp (List.not_mem_nil p)
  | cons p ps ih =>
      intro m0 t h
      simp only [List.foldl_cons]
      rcases h with ⟨x, hx, hxt⟩ | hq
      · obtain ⟨y, hy, hyx⟩ := (indexMapInsert_keys m0 p.1 p.2).1 x hx
        exact ih _ t (Or.inl ⟨y, hy, by rw [hyx, hxt]⟩)
      · obtain ⟨q, hq', hqt⟩ := hq
        rcases List.mem_cons.mp hq' with rfl | hm
        · obtain ⟨y, hy, hyk⟩ := (indexMapInsert_keys m0 q.1 q.2).2
          exact ih _ t (Or.inl ⟨y, hy, by rw [hyk, hqt]⟩)
        · exact ih _ t (Or.inr ⟨q, hm, hqt⟩)

lemma buildIndexMap_keys (pts : List (ℤ × ℚ)) :
    ∀ p ∈ pts, ∃ e ∈ buildIndexMap pts, e.1 = p.1 := by
  intro p hp
  exact foldl_insert_keys pts [] p.1 (Or.inr ⟨p, hp, rfl⟩)

lemma mergeBtcPoint_nil (b : BtcPricePoint) :
    mergeBtcPoint [] b = some ⟨b.timestamp, b.date, b.price, 50⟩ := rfl

lemma filterMap_merge_nil (btcPts : List BtcPricePoint) :
    btcPts.filterMap (mergeBtcPoint []) =
      btcPts.map fun b => (⟨b.timestamp, b.date, b.price, 50⟩ :
        ChartDataPoint) := by
  induction btcPts with
  | nil => rfl
  | cons b bs ih =>
      rw [List.filterMap_cons, mergeBtcPoint_nil, List.map_cons, ih]

/-- C5: each BTC price point merges with the index observation at the exact
same timestamp when one exists, else with a closest observation within the
24-hour tolerance window; a point with an exact match or with any index
observation within tolerance is always kept (the merge returns a row); when
index data exists but none lies within tolerance of the point, the point is
dropped; when the index series is entirely empty, every point is kept with the
neutral fallback index 50. -/
theorem nearestMerge_spec (idxPts : List (ℤ × ℚ))
    (btcPts : List BtcPricePoint) (b : BtcPricePoint) :
    ((mergeChartData [] btcPts).length = btcPts.length ∧
      (b ∈ btcPts →
        (⟨b.timestamp, b.date, b.price, 50⟩ : ChartDataPoint) ∈
          mergeChartData [] btcPts)) ∧
    (idxPts ≠ [] →
      (∀ p ∈ idxPts, ¬ |b.timestamp - p.1| < 86400000) →
      mergeBtcPoint (buildIndexMap idxPts) b = none) ∧
    (∀ r : ChartDataPoint, mergeBtcPoint (buildIndexMap idxPts) b = some r →
      r.timestamp = b.timestamp ∧ r.date = b.date ∧ r.price = b.price ∧
      ((idxPts = [] ∧ r.index = 50) ∨
        ∃ p ∈ idxPts, p.2 = r.index ∧
          (p.1 = b.timestamp ∨
            (|b.timestamp - p.1| < 86400000 ∧
              ∀ p' ∈ idxPts, |b.timestamp - p'.1| < 86400000 →
                |b.timestamp - p.1| ≤ |b.timestamp - p'.1|)))) ∧
    ((∃ p ∈ idxPts, p.1 = b.timestamp) →
      ∃ r : ChartDataPoint,
        mergeBtcPoint (buildIndexMap idxPts) b = some r ∧
        ∃ p ∈ idxPts, p.1 = b.timestamp ∧ p.2 = r.index) ∧
    ((∃ p ∈ idxPts, |b.timestamp - p.1| < 86400000) →
      ∃ r : ChartDataPoint,
        mergeBtcPoint (buildIndexMap idxPts) b = some r) := by
  refine ⟨⟨?_, ?_⟩, ?_, ?_, ?_, ?_⟩
  · unfold mergeChartData
    rw [List.length_mergeSort,
      show buildIndexMap [] = [] from rfl, filterMap_merge_nil,
      List.length_map]
  · intro hb
    unfold mergeChartData
    rw [List.mem_mergeSort, show buildIndexMap [] = [] from rfl,
      filterMap_merge_nil]
    exact List.mem_map.mpr ⟨b, hb, rfl⟩
  · intro hne htol
    have hmemsub := buildIndexMap_mem idxPts
    have hfind : (buildIndexMap idxPts).find?
        (fun e => decide (e.1 = b.timestamp)) = none := by
      rw [List.find?_eq_none]
      intro e he
      simp only [decide_eq_true_eq]
      intro het
      have := htol e (hmemsub e he)
      rw [het] at this
      simp at this
    have hclo : closestWithin24h (buildIndexMap idxPts) b.timestamp = none :=
      (closestWithin24h_none_iff _ _).mpr fun e he => htol e (hmemsub e he)
    have hlen : ¬ (buildIndexMap idxPts).length = 0 := by
      intro h0
      exact hne ((buildIndexMap_eq_nil_iff idxPts).mp
        (List.length_eq_zero.mp h0))
    unfold mergeBtcPoint
    rw [hfind]
    dsimp only
    rw [hclo]
    dsimp only
    rw [if_neg hlen]
  · intro r hr
    unfold mergeBtcPoint at hr
    cases hfind : (buildIndexMap idxPts).find?
        (fun e => decide (e.1 = b.timestamp)) with
    | some e =>
        rw [hfind] at hr
        dsimp only at hr
        obtain rfl : (⟨b.timestamp, b.date, b.price, e.2⟩ : ChartDataPoint) =
            r := Option.some.inj hr
        have hmem : e ∈ idxPts :=
          buildIndexMap_mem idxPts e (List.mem_of_find?_eq_some hfind)
        have heq : e.1 = b.timestamp := by
          have := List.find?_some hfind
          simpa using this
        exact ⟨rfl, rfl, rfl, Or.inr ⟨e, hmem, rfl, Or.inl heq⟩⟩
    | none =>
        rw [hfind] at hr
        dsimp only at hr
        cases hclo : closestWithin24h (buildIndexMap idxPts) b.timestamp with
        | some v =>
            rw [hclo] at hr
            dsimp only at hr
            obtain rfl : (⟨b.timestamp, b.date, b.price, v⟩ :
                ChartDataPoint) = r := Option.some.inj hr
            obtain ⟨e, he, hev, heT, hmin⟩ := closestWithin24h_some _ _ _ hclo
            have hmem : e ∈ idxPts := buildIndexMap_mem idxPts e he
            refine ⟨rfl, rfl, rfl, Or.inr ⟨e, hmem, hev, Or.inr ⟨heT, ?_⟩⟩⟩
            intro p' hp' hd'
            obtain ⟨e', he', he'1⟩ := buildIndexMap_keys idxPts p' hp'
            have := hmin e' he' (by rw [he'1]; exact hd')
            rw [he'1] at this
            exact this
        | none =>
            rw [hclo] at hr
            dsimp only at hr
            by_cases hlen : (buildIndexMap idxPts).length = 0
            · rw [if_pos hlen] at hr
              obtain rfl : (⟨b.timestamp, b.date, b.price, 50⟩ :
                  ChartDataPoint) = r := Option.some.inj hr
              have hnil : idxPts = [] := (buildIndexMap_eq_nil_iff idxPts).mp
                (List.length_eq_zero.mp hlen)
              exact ⟨rfl, rfl, rfl, Or.inl ⟨hnil, rfl⟩⟩
            · rw [if_neg hlen] at hr
              exact Option.noConfusion hr
  · rintro ⟨p, hp, hpt⟩
    obtain ⟨e0, he0, he0t⟩ := buildIndexMap_keys idxPts p hp
    cases hfind : (buildIndexMap idxPts).find?
        (fun x => decide (x.1 = b.timestamp)) with
    | none =>
        exfalso
        have := List.find?_eq_none.mp hfind e0 he0
        simp only [decide_eq_true_eq] at this
        exact this (he0t.trans hpt)
    | some e =>
        have hmem : e ∈ idxPts :=
          buildIndexMap_mem idxPts e (List.mem_of_find?_eq_some hfind)
        have heq : e.1 = b.timestamp := by
          have := List.find?_some hfind
          simpa using this
        refine ⟨⟨b.timestamp, b.date, b.price, e.2⟩, ?_, e, hmem, heq, rfl⟩
        unfold mergeBtcPoint
        rw [hfind]
  · rintro ⟨p, hp, hpd⟩
    cases hfind : (buildIndexMap idxPts).find?
        (fun x => decide (x.1 = b.timestamp)) with
    | some e =>
        refine ⟨⟨b.timestamp, b.date, b.price, e.2⟩, ?_⟩
        unfold mergeBtcPoint
        rw [hfind]
    | none =>
        cases hclo : closestWithin24h (buildIndexMap idxPts) b.timestamp with
        | none =>
            exfalso
            obtain ⟨e', he', he't⟩ := buildIndexMap_keys idxPts p hp
            have := (closestWithin24h_none_iff _ _).mp hclo e' he'
            rw [he't] at this
            exact this hpd
        | some v =>
            refine ⟨⟨b.timestamp, b.date, b.price, v⟩, ?_⟩
            unfold mergeBtcPoint
            rw [hfind]
            dsimp only
            rw [hclo]

/-- Witness for C5: an index observation at `t0 = 0` and a price point 25
hours later (90000000 ms) do not merge; with an entirely empty index series
the price point is kept and merged with fallback index 50; a price point one
millisecond inside the tolerance window is kept and merged with the closest
observation's value; a price point at the exact timestamp is kept and merged
with that observation's value. -/
theorem nearestMerge_spec_witness :
    mergeBtcPoint (buildIndexMap [((0 : ℤ), (60 : ℚ))]) ⟨90000000, 0, 100⟩ =
      none ∧
    (⟨90000000, 0, 100, 50⟩ : ChartDataPoint) ∈
      mergeChartData [] [⟨90000000, 0, 100⟩] ∧
    (mergeChartData [] [(⟨90000000, 0, 100⟩ : BtcPricePoint)]).length = 1 ∧
    mergeBtcPoint (buildIndexMap [((0 : ℤ), (60 : ℚ))]) ⟨86399999, 0, 100⟩ =
      some ⟨86399999, 0, 100, 60⟩ ∧
    mergeBtcPoint (buildIndexMap [((0 : ℤ), (60 : ℚ))]) ⟨0, 0, 100⟩ =
      some ⟨0, 0, 100, 60⟩ := by
  have h := nearestMerge_spec [((0 : ℤ), (60 : ℚ))] [⟨90000000, 0, 100⟩]
    ⟨90000000, 0, 100⟩
  obtain ⟨r1, hr1⟩ := (nearestMerge_spec [((0 : ℤ), (60 : ℚ))] []
    ⟨86399999, 0, 100⟩).2.2.2.2 ⟨(0, 60), by decide, by decide⟩
  have hru1 : r1 = ⟨86399999, 0, 100, 60⟩ :=
    Option.some.inj (hr1.symm.trans (by decide))
  rw [hru1] at hr1
  obtain ⟨r2, hr2, p, hp, hpt, hpv⟩ := (nearestMerge_spec
    [((0 : ℤ), (60 : ℚ))] [] ⟨0, 0, 100⟩).2.2.2.1 ⟨(0, 60), by decide,
    by decide⟩
  have hru2 : r2 = ⟨0, 0, 100, 60⟩ :=
    Option.some.inj (hr2.symm.trans (by decide))
  rw [hru2] at hr2
  refine ⟨h.2.1 (by decide) (by decide), h.1.2 (by decide), ?_, hr1, hr2⟩
  rw [h.1.1]
  rfl
